import Mathlib

set_option maxRecDepth 40000

/-!
Verification of the checklist-to-interactive-form converter of the
ContextLab lab-manual repository (the `checklist.js` / `toc.js` family of
scripts post-processing the TeX4ht HTML export).

The JavaScript sources are shallowly embedded: strings are `List Char` /
`String`, the DOM is a tree of element and text nodes, canvas image data is
the flat RGBA byte list returned by `getImageData`, the persisted record is
a small JSON value type, and every handler becomes a pure function from its
inputs to its outputs.  All definitions are executable and translated
directly from the source files.
-/

namespace LabManual

/-! ## JavaScript string primitives -/

/-- The whitespace characters relevant to `String.prototype.trim` for the
ASCII range handled by these scripts (space, tab, newline, carriage return,
vertical tab, form feed). -/
def isJsWs (c : Char) : Bool :=
  c == ' ' || c == '\t' || c == '\n' || c == '\r' || c == '\x0b' || c == '\x0c'

/-- The `text.trim()` on a character list: drop whitespace from both ends. -/
def jsTrimList (l : List Char) : List Char :=
  ((l.dropWhile isJsWs).reverse.dropWhile isJsWs).reverse

/-- The `text.trim()` on a `String`. -/
def jsTrim (s : String) : String :=
  String.mk (jsTrimList s.data)

/-- ASCII lower-casing, as performed by `toLowerCase` on the heading texts
these scripts inspect. -/
def lowerAscii (c : Char) : Char :=
  if 'A' ≤ c && c ≤ 'Z' then Char.ofNat (c.toNat + 32) else c

/-- The `sub` occurs as a contiguous substring of `l`
(`String.prototype.includes`). -/
def subOccursIn (sub : List Char) : List Char → Bool
  | [] => sub.isEmpty
  | c :: rest => sub.isPrefixOf (c :: rest) || subOccursIn sub rest

/-- The `s.includes(sub)` (case sensitive). -/
def includesStr (s sub : String) : Bool :=
  subOccursIn sub.data s.data

/-- The `s.toLowerCase().includes(sub)` for an already-lower-case `sub`. -/
def lcIncludes (s sub : String) : Bool :=
  subOccursIn sub.data (s.data.map lowerAscii)

/-- The `s.includes(c)` for a single character. -/
def strContainsChar (s : String) (c : Char) : Bool :=
  s.data.any (fun x => x == c)

/-! ## Checkbox glyphs and item splitting -/

/-- Unicode U+2610 BALLOT BOX. -/
def ballotBox : Char := Char.ofNat 0x2610

/-- Unicode U+2611 BALLOT BOX WITH CHECK. -/
def ballotBoxChecked : Char := Char.ofNat 0x2611

/-- Unicode U+2612 BALLOT BOX WITH X. -/
def ballotBoxX : Char := Char.ofNat 0x2612

/-- Unicode U+25A1 WHITE SQUARE. -/
def whiteSquare : Char := Char.ofNat 0x25A1

/-- The split regex `/☐|☑|☒|□/` of the primary
extraction strategy: the four-glyph checkbox family. -/
def isDelim4 (c : Char) : Bool :=
  c == ballotBox || c == ballotBoxChecked || c == ballotBoxX || c == whiteSquare

/-- The split regex `/[□☐]/` of the full-text extraction strategy:
only the white square and the empty ballot box. -/
def isDelim2 (c : Char) : Bool :=
  c == whiteSquare || c == ballotBox

/-- The `text.split(regex)` where the regex matches exactly the single
characters satisfying `p`: the list of parts between delimiter occurrences
(`n` delimiters produce `n + 1` parts, empty parts included). -/
def splitOnDelims (p : Char → Bool) : List Char → List (List Char)
  | [] => [[]]
  | c :: rest =>
    let parts := splitOnDelims p rest
    if p c then [] :: parts
    else
      match parts with
      | [] => [[c]]
      | q :: qs => (c :: q) :: qs

/-- The `c` is whitespace or a comma (the class `[\s,]` used to strip delimiter
residue from item candidates). -/
def isWsComma (c : Char) : Bool :=
  isJsWs c || c == ','

/-- The `part.trim().replace(/^[\s,]+/, '').replace(/[\s,]+$/, '')`: the
clean-up applied to each split part. -/
def cleanItem (l : List Char) : List Char :=
  (((jsTrimList l).dropWhile isWsComma).reverse.dropWhile isWsComma).reverse

/-- Candidate post-processing shared by both split-based strategies: skip
the text before the first delimiter, clean each part, keep parts longer
than `minLen`. -/
def extractFromParts (minLen : Nat) (parts : List (List Char)) : List String :=
  (((parts.drop 1).map cleanItem).filter (fun l => minLen < l.length)).map String.mk

/-- Item extraction of the primary strategy (split of the checklist
paragraph `innerHTML` on the four-glyph family, threshold 10). -/
def extractItemsSplit4 (text : String) : List String :=
  extractFromParts 10 (splitOnDelims isDelim4 text.data)

/-- Item extraction of the full-text strategy (split of the concatenated
sibling text on `[□☐]` only, threshold 15). -/
def extractItemsFullText (text : String) : List String :=
  extractFromParts 15 (splitOnDelims isDelim2 text.data)

/-- The `text.replace(/\s+/g, ' ')`: collapse every whitespace run into a
single space. -/
def collapseWs : List Char → List Char
  | [] => []
  | c :: rest =>
    if isJsWs c then
      match collapseWs rest with
      | ' ' :: r => ' ' :: r
      | r => ' ' :: r
    else c :: collapseWs rest

/-! ## The node-walking extraction strategy (part_001)

In the first script variant the checklist region is a run of sibling nodes;
MJX-CONTAINER / MATH elements carry the rendered checkbox characters, and
item text lives in the text nodes and inline elements between them.  A
sibling node is modelled by its node type, tag name (upper case, as DOM
`tagName` reports it) and text content. -/

/-- A sibling node seen by the part_001 walker: a text node or an element
with its tag name and text content. -/
inductive PNode where
  | ptext (s : String)
  | pelem (tag : String) (content : String)
deriving DecidableEq, Repr

/-- Walker state: items pushed so far, current accumulator, and the
`foundFirstCheckbox` flag. -/
structure WalkState where
  items : List String
  cur : String
  found : Bool
deriving Repr

/-- One step of the part_001 item walk: an MJX-CONTAINER or MATH element is
a checkbox marker that closes the current item (pushed when the trimmed
accumulator is longer than 15); afterwards text nodes and non-DIV elements
append their text content to the accumulator. -/
def walkStep (st : WalkState) (n : PNode) : WalkState :=
  match n with
  | PNode.pelem t c =>
    if t == "MJX-CONTAINER" || t == "MATH" then
      { items := if st.found && 15 < (jsTrim st.cur).length
          then st.items ++ [jsTrim st.cur] else st.items,
        cur := "", found := true }
    else if st.found then
      if t == "DIV" then st else { st with cur := st.cur ++ c }
    else st
  | PNode.ptext s =>
    if st.found then { st with cur := st.cur ++ s } else st

/-- The part_001 extraction: fold the walker over the collected sibling
nodes, push the final accumulator if long enough, then normalise the
whitespace of every item (`replace(/\s+/g, ' ').trim()`). -/
def extractItemsWalk (nodes : List PNode) : List String :=
  let st := nodes.foldl walkStep { items := [], cur := "", found := false }
  let items := if 15 < (jsTrim st.cur).length
    then st.items ++ [jsTrim st.cur] else st.items
  items.map (fun s => jsTrim (String.mk (collapseWs s.data)))

/-! ## JSON values and JavaScript coercions

`saveChecklistState` serialises `{checkboxes, date, signature}` with
`JSON.stringify` into the single localStorage key `labManualChecklist`, and
`loadChecklistState` reads it back with `JSON.parse`.  The
stringify/parse channel is modelled by the JSON value itself; a stored
string that fails to parse is the `malformed` case of `Stored`. -/

/-- A parsed JSON value.  Numbers are modelled as integers (the scripts
never store fractional values). -/
inductive Json where
  | null
  | jbool (b : Bool)
  | jnum (n : Int)
  | jstr (s : String)
  | jarr (elems : List Json)
  | jobj (fields : List (String × Json))

/-- Property lookup on an object field list (first binding wins; the parsed
objects here have distinct keys). -/
def lookupField : List (String × Json) → String → Option Json
  | [], _ => none
  | (k', v) :: rest, k => if k' == k then some v else lookupField rest k

/-- The `obj.key`: property access.  `none` stands for JavaScript `undefined`
(missing property, or property access on a non-object). -/
def jsField : Json → String → Option Json
  | Json.jobj fs, k => lookupField fs k
  | _, _ => none

/-- JavaScript truthiness of a parsed value. -/
def jsTruthy : Json → Bool
  | Json.null => false
  | Json.jbool b => b
  | Json.jnum n => n != 0
  | Json.jstr s => s != ""
  | Json.jarr _ => true
  | Json.jobj _ => true

/-- Truthiness with `undefined` (absent) being falsy. -/
def jsTruthyOpt : Option Json → Bool
  | none => false
  | some j => jsTruthy j

/-- The `v[i]` for a numeric index: array element, string character, or object
property named by the index; `undefined` otherwise. -/
def jsIndex : Json → Nat → Option Json
  | Json.jarr xs, i => xs.get? i
  | Json.jstr s, i =>
    match s.data.get? i with
    | some c => some (Json.jstr (String.mk [c]))
    | none => none
  | Json.jobj fs, i => lookupField fs (toString i)
  | _, _ => none

mutual

/-- JavaScript string coercion of a parsed value (as performed when a JSON
value is assigned to `input.value` or `img.src`). -/
def jsonToString : Json → String
  | Json.null => "null"
  | Json.jbool true => "true"
  | Json.jbool false => "false"
  | Json.jnum n => toString n
  | Json.jstr s => s
  | Json.jarr xs => jsonArrToString xs
  | Json.jobj _ => "[object Object]"

/-- Array-to-string coercion: elements joined by commas. -/
def jsonArrToString : List Json → String
  | [] => ""
  | [x] => jsonToString x
  | x :: y :: xs => jsonToString x ++ "," ++ jsonArrToString (y :: xs)

end

/-! ## Form state, persistence and the signature canvas -/

/-- One rendered checklist item: the checkbox `checked` flag and whether
its item div carries the `completed` class. -/
structure CheckItem where
  checked : Bool
  completed : Bool
deriving DecidableEq, Repr

/-- The interactive form as it stands in the page after conversion: the
rendered items, the date field value, and the signature canvas content
abstracted as its encoded bitmap string (`toDataURL`; the blank canvas is
modelled as the empty encoding). -/
structure UIState where
  items : List CheckItem
  date : String
  signature : String
deriving DecidableEq, Repr

/-- The freshly built form before `loadChecklistState` runs: every checkbox
unchecked, no `completed` markers, the date field pre-filled with today's
date, a blank signature canvas. -/
def defaultUI (n : Nat) (today : String) : UIState :=
  { items := List.replicate n { checked := false, completed := false },
    date := today, signature := "" }

/-- The `saveChecklistState`: the JSON record written to the
`labManualChecklist` key — the checkbox array in item order, the date field
value and the encoded signature bitmap. -/
def saveChecklistState (ui : UIState) : Json :=
  Json.jobj
    [("checkboxes", Json.jarr (ui.items.map (fun it => Json.jbool it.checked))),
     ("date", Json.jstr ui.date),
     ("signature", Json.jstr ui.signature)]

/-- What `localStorage.getItem('labManualChecklist')` holds: nothing, a
string `JSON.parse` rejects, or a string parsing to a JSON value. -/
inductive Stored where
  | absent
  | malformed
  | value (j : Json)

/-- The per-index entry check of `loadChecklistState`:
`state.checkboxes && state.checkboxes[index]`. -/
def entryOf (j : Json) (i : Nat) : Option Json :=
  if jsTruthyOpt (jsField j "checkboxes") then
    match jsField j "checkboxes" with
    | some v => jsIndex v i
    | none => none
  else none

/-- Whether the stored record yields a truthy checkbox entry at index `i`
(false for an absent, unparseable or null record). -/
def entryTruthy (stored : Stored) (i : Nat) : Bool :=
  match stored with
  | Stored.value Json.null => false
  | Stored.value j => jsTruthyOpt (entryOf j i)
  | _ => false

/-- The checkbox-restoring loop of `loadChecklistState`: where the stored
entry is truthy the checkbox is set checked and the `completed` class is
added; everything else is left untouched. -/
def applyBoxes (entry : Nat → Option Json) : Nat → List CheckItem → List CheckItem
  | _, [] => []
  | i, it :: rest =>
    (if jsTruthyOpt (entry i) then ({ checked := true, completed := true } : CheckItem) else it)
      :: applyBoxes entry (i + 1) rest

/-- The `loadChecklistState`: read the stored record and rehydrate the form.
An absent key returns early; a parse failure is caught by the surrounding
try/catch; a stored `null` raises a TypeError on the first property access
(before any mutation) which the same try/catch swallows.  Otherwise each
field is restored independently when truthy. -/
def loadChecklistState (stored : Stored) (ui : UIState) : UIState :=
  match stored with
  | Stored.absent => ui
  | Stored.malformed => ui
  | Stored.value Json.null => ui
  | Stored.value j =>
    { items := applyBoxes (entryOf j) 0 ui.items,
      date :=
        match jsField j "date" with
        | some v => if jsTruthy v then jsonToString v else ui.date
        | none => ui.date,
      signature :=
        match jsField j "signature" with
        | some v => if jsTruthy v then jsonToString v else ui.signature
        | none => ui.signature }

/-! ## Signature canvas pixels -/

/-- A canvas with the flat RGBA byte list that
`getImageData(0, 0, width, height).data` yields. -/
structure Canvas where
  width : Nat
  height : Nat
  data : List Nat
deriving DecidableEq, Repr

/-- The alpha bytes of the flat RGBA data: the loop
`for (i = 3; i < data.length; i += 4)`. -/
def alphaBytes : List Nat → List Nat
  | _ :: _ :: _ :: a :: rest => a :: alphaBytes rest
  | _ => []

/-- The signature-presence test of `emailChecklist`: some sampled alpha
byte is non-zero. -/
def hasSignaturePixels (data : List Nat) : Bool :=
  (alphaBytes data).any (fun a => decide (0 < a))

/-- The `clearSignature`: `clearRect(0, 0, canvas.width, canvas.height)` over
the whole surface resets every byte of the image data to zero, then the
cleared state is persisted. -/
def clearSignature (c : Canvas) : Canvas :=
  { c with data := c.data.map (fun _ => 0) }

/-! ## Certificate export preconditions -/

/-- Outcome of pressing the export button: a blocking validation message
(`alert` then `return` — nothing is downloaded and no state changes), or
the export proceeding with the validated date. -/
inductive ExportOutcome where
  | abort (message : String)
  | proceed (dateValue : String)
deriving DecidableEq, Repr

/-- The `emailChecklist`: the three gate checks in source order.  First every
checkbox must be checked; then, when the signature canvas exists, its
rendered bitmap must contain a non-zero alpha sample; finally the date
field must be non-empty.  Only then does the export continue. -/
def emailChecklist (ui : UIState) (canvasData : Option (List Nat)) : ExportOutcome :=
  let allChecked := ui.items.foldl (fun acc it => if it.checked then acc else false) true
  if !allChecked then ExportOutcome.abort "Please check all items before submitting."
  else
    let dateCheck :=
      if ui.date == "" then ExportOutcome.abort "Please enter the date before submitting."
      else ExportOutcome.proceed ui.date
    match canvasData with
    | some data =>
      if !(hasSignaturePixels data) then
        ExportOutcome.abort "Please add your signature before submitting."
      else dateCheck
    | none => dateCheck

/-! ## The document model and the builder

The TeX4ht page is modelled as the list of its body children; headings, the
checklist paragraph and the signature table are body-level siblings, as in
the generated HTML.  A node is an element (tag name in DOM upper case, `id`
attribute, a `display:none` flag, children) or a text node. -/

/-- A DOM node: element or text. -/
inductive Node where
  | elem (tag : String) (idAttr : String) (hidden : Bool) (children : List Node)
  | text (s : String)

mutual

/-- The `node.textContent`: the concatenated text of the subtree (independent
of the `display` style). -/
def Node.textContent : Node → String
  | Node.text s => s
  | Node.elem _ _ _ cs => textContentList cs

/-- The `textContent` over a child list. -/
def textContentList : List Node → String
  | [] => ""
  | n :: ns => n.textContent ++ textContentList ns

end

mutual

/-- Markup serialisation of a node (attributes elided — the checklist
paragraphs these scripts split carry plain text content). -/
def Node.outerHTML : Node → String
  | Node.text s => s
  | Node.elem t _ _ cs => "<" ++ t ++ ">" ++ innerHTMLList cs ++ "</" ++ t ++ ">"

/-- Serialisation of a child list. -/
def innerHTMLList : List Node → String
  | [] => ""
  | n :: ns => n.outerHTML ++ innerHTMLList ns

end

/-- The `node.innerHTML`: the serialised children. -/
def Node.innerHTML : Node → String
  | Node.text s => s
  | Node.elem _ _ _ cs => innerHTMLList cs

/-- Is this node an element node? -/
def isElemNode : Node → Bool
  | Node.elem _ _ _ _ => true
  | Node.text _ => false

/-- Is this node an `h2` element? -/
def isH2 : Node → Bool
  | Node.elem t _ _ _ => t == "H2"
  | Node.text _ => false

/-- The heading predicate of the region locator: the text content contains
both "checklist" and "signature" case-insensitively. -/
def matchesChecklist (n : Node) : Bool :=
  lcIncludes n.textContent "checklist" && lcIncludes n.textContent "signature"

/-- An `h2` matching the checklist/signature predicate. -/
def isChecklistH2 (n : Node) : Bool :=
  isH2 n && matchesChecklist n

mutual

/-- All `h2` elements of a node list in document (pre)order, as
`querySelectorAll('h2')` enumerates them. -/
def collectH2 : List Node → List Node
  | [] => []
  | n :: rest => collectH2Node n ++ collectH2 rest

/-- The `h2` elements of one subtree in document order. -/
def collectH2Node : Node → List Node
  | Node.text _ => []
  | Node.elem t idAttr hidden cs =>
    (if t == "H2" then [Node.elem t idAttr hidden cs] else []) ++ collectH2 cs

end

/-- The heading search of `convertChecklistToInteractive`: iterate over all
`h2` elements, keeping the latest one whose text matches — the last match
wins. -/
def findChecklistHeading (doc : List Node) : Option Node :=
  (collectH2 doc).foldl (fun acc h => if matchesChecklist h then some h else acc) none

/-- Position of the selected heading in the body-children list: the last
body-level index holding a matching `h2` (the code keeps a node reference;
in the flat model the position identifies it). -/
def lastMatchIdxAux : List Node → Nat → Option Nat
  | [], _ => none
  | n :: rest, i =>
    match lastMatchIdxAux rest (i + 1) with
    | some j => some j
    | none => if isChecklistH2 n then some i else none

/-- Body-level index of the last matching `h2`, if any. -/
def lastMatchIdx (doc : List Node) : Option Nat :=
  lastMatchIdxAux doc 0

/-- First index in the sibling run satisfying `p` (used for the
`nextElementSibling` walks, which skip text nodes via `p`). -/
def findFirstIdx (p : Node → Bool) : List Node → Option Nat
  | [] => none
  | n :: rest =>
    if p n then some 0
    else (findFirstIdx p rest).map (· + 1)

/-- Does this element's text contain one of the checkbox characters the
paragraph search looks for (U+2610 or U+25A1)? -/
def hasGlyphText (n : Node) : Bool :=
  isElemNode n &&
    (strContainsChar n.textContent ballotBox || strContainsChar n.textContent whiteSquare)

/-- Tag-name comparison on an element node. -/
def matchTag : Node → String → Bool
  | Node.elem t _ _ _, tag => t == tag
  | Node.text _, _ => false

/-- The signature-table predicate: a TABLE element, or an element whose
text contains both "Signature" and "Date" (case sensitive). -/
def isSignatureTable (n : Node) : Bool :=
  isElemNode n &&
    (matchTag n "TABLE" ||
      (includesStr n.textContent "Signature" && includesStr n.textContent "Date"))

/-- Set the `display:none` flag on a node. -/
def hideNode : Node → Node
  | Node.elem t idAttr _ cs => Node.elem t idAttr true cs
  | Node.text s => Node.text s

/-- Hide the node at body-level index `k`. -/
def hideAt : List Node → Nat → List Node
  | [], _ => []
  | n :: rest, 0 => hideNode n :: rest
  | n :: rest, k + 1 => n :: hideAt rest k

/-- Insert a node at body-level index `k` (before the node currently
there). -/
def insertAt : List Node → Nat → Node → List Node
  | l, 0, x => x :: l
  | [], _ + 1, x => [x]
  | n :: rest, k + 1, x => n :: insertAt rest k x

/-- One rendered checklist row: the checkbox input with id
`checklist-item-<index>` and its label carrying the item text. -/
def buildItemDiv (idx : Nat) (itm : String) : Node :=
  Node.elem "DIV" "" false
    [Node.elem "INPUT" ("checklist-item-" ++ toString idx) false [],
     Node.elem "LABEL" "" false [Node.text itm]]

/-- The item rows, indexed from `idx`. -/
def buildItemDivs (idx : Nat) : List String → List Node
  | [] => []
  | itm :: rest => buildItemDiv idx itm :: buildItemDivs (idx + 1) rest

/-- The signature section: heading, canvas container with clear button,
date field pre-filled with today's date, and the email button. -/
def buildSignatureSection : Node :=
  Node.elem "DIV" "" false
    [Node.elem "H3" "" false [Node.text "Signature"],
     Node.elem "DIV" "" false
       [Node.elem "LABEL" "" false [Node.text "Sign below (draw your signature):"],
        Node.elem "CANVAS" "signature-canvas" false [],
        Node.elem "BR" "" false [],
        Node.elem "BUTTON" "" false [Node.text "Clear Signature"]],
     Node.elem "DIV" "" false
       [Node.elem "LABEL" "" false [Node.text "Date:"],
        Node.elem "INPUT" "signature-date" false []],
     Node.elem "BUTTON" "" false
       [Node.text "Email Completed Checklist to contextualdynamics@gmail.com"]]

/-- The interactive container (`div#interactive-checklist`): intro line,
item rows, signature section. -/
def buildContainer (items : List String) : Node :=
  Node.elem "DIV" "interactive-checklist" false
    (Node.elem "P" "" false
        [Node.text "By signing below, I certify that I have completed the following tasks:"]
      :: (buildItemDivs 0 items ++ [buildSignatureSection]))

/-- The `convertChecklistToInteractive` (part_002, first variant): locate the
checklist heading (last match wins, exit silently when absent), find the
first following element sibling whose text contains a checkbox character,
split its `innerHTML` on the four-glyph family into items (exit when none
survive), build the interactive container, hide the original paragraph and
the signature table, and insert the container before the paragraph. -/
def convertChecklistToInteractive (doc : List Node) : List Node :=
  match lastMatchIdx doc with
  | none => doc
  | some i =>
    let after := doc.drop (i + 1)
    match findFirstIdx hasGlyphText after with
    | none => doc
    | some j =>
      match (doc.drop (i + 1 + j)).head? with
      | none => doc
      | some para =>
        let items := extractItemsSplit4 para.innerHTML
        if items.isEmpty then doc
        else
          let container := buildContainer items
          let paraIdx := i + 1 + j
          let doc1 := hideAt doc paraIdx
          let doc2 :=
            match findFirstIdx isSignatureTable (doc.drop (paraIdx + 1)) with
            | some k => hideAt doc1 (paraIdx + 1 + k)
            | none => doc1
          insertAt doc2 paraIdx container

mutual

/-- Count the elements of a subtree whose tag and id satisfy `p`. -/
def countElemsNode (p : String → String → Bool) : Node → Nat
  | Node.text _ => 0
  | Node.elem t idAttr _ cs =>
    (if p t idAttr then 1 else 0) + countElemsList p cs

/-- Count over a node list. -/
def countElemsList (p : String → String → Bool) : List Node → Nat
  | [] => 0
  | n :: ns => countElemsNode p n + countElemsList p ns

end

/-- Number of elements carrying a given id in the whole document. -/
def countById (doc : List Node) (idv : String) : Nat :=
  countElemsList (fun _ i => i == idv) doc

/-- Number of checkbox inputs (INPUT elements whose id starts with
`checklist-item-`) in the whole document. -/
def countCheckboxInputs (doc : List Node) : Nat :=
  countElemsList (fun t i => t == "INPUT" && "checklist-item-".data.isPrefixOf i.data) doc

/-! ## fixEnumerationNumbering

`fixEnumerationNumbering` rewrites every `dt` whose trimmed text matches
the regex `/^\d+(\.\d+){2,}\.*$/`.  The regex is compiled into a two-state
scanner: inside a digit group, or just after a separating dot; `g` counts
the digit groups seen so far (the pattern needs at least three). -/

/-- Are all remaining characters dots (the trailing `\.*$` tail)? -/
def allDots : List Char → Bool
  | [] => true
  | c :: rest => c == '.' && allDots rest

mutual

/-- Scanner state: at least one digit of group number `g` has been read. -/
def matchInDigits : List Char → Nat → Bool
  | [], g => decide (3 ≤ g)
  | c :: rest, g =>
    if c.isDigit then matchInDigits rest g
    else if c == '.' then matchAfterDot rest g
    else false

/-- Scanner state: a dot was just read after `g` complete groups.  A digit
opens group `g + 1`; a second dot or the end means the dot run is the
trailing `\.*` tail. -/
def matchAfterDot : List Char → Nat → Bool
  | [], g => decide (3 ≤ g)
  | c :: rest, g =>
    if c.isDigit then matchInDigits rest (g + 1)
    else if c == '.' then decide (3 ≤ g) && allDots rest
    else false

end

/-- The `/^\d+(\.\d+){2,}\.*$/.test(text)`. -/
def matchEnumPattern (l : List Char) : Bool :=
  match l with
  | [] => false
  | c :: rest => if c.isDigit then matchInDigits rest 1 else false

/-- The `text.replace(/\.+$/, '')`: strip the trailing run of dots. -/
def dropTrailingDots : List Char → List Char
  | [] => []
  | c :: rest =>
    match dropTrailingDots rest with
    | [] => if c == '.' then [] else [c]
    | x :: xs => c :: x :: xs

/-- The replacement applied to a matching `dt`: strip the trailing dots,
split on '.', and keep the last component followed by a period. -/
def lastDotComponent (l : List Char) : List Char :=
  (splitOnDelims (fun c => c == '.') (dropTrailingDots l)).getLastD []

/-- The `fixEnumerationNumbering` on one `dt` text: when the trimmed text
matches the malformed-number pattern the whole text is replaced by the last
number and a period; otherwise the text is untouched. -/
def fixDtText (text : String) : String :=
  let t := jsTrim text
  if matchEnumPattern t.data then String.mk (lastDotComponent t.data) ++ "."
  else text

/-! Declarative counterpart of the regex, used to state the C10 claim in
the spec's own terms. -/

/-- A non-empty all-digit character group. -/
def IsDigitGroup (g : List Char) : Prop :=
  g ≠ [] ∧ ∀ c ∈ g, c.isDigit = true

instance instDecidableIsDigitGroup (g : List Char) : Decidable (IsDigitGroup g) :=
  inferInstanceAs (Decidable (g ≠ [] ∧ ∀ c ∈ g, c.isDigit = true))

/-- The `groups` interleaved with single dots (`"1.2.3"` for
`[[1],[2],[3]]`). -/
def joinGroups : List (List Char) → List Char
  | [] => []
  | [g] => g
  | g :: g' :: gs => g ++ '.' :: joinGroups (g' :: gs)

/-- Groups each prefixed by a dot (`".2.3"` for `[[2],[3]]`): the tail of
`joinGroups` after the first group. -/
def dotGroups (gs : List (List Char)) : List Char :=
  (gs.map (fun g => '.' :: g)).flatten

/-- The shape the claim describes: three or more dot-separated integer
components, optionally followed by trailing dots. -/
def DtShape (l : List Char) : Prop :=
  ∃ (gs : List (List Char)) (k : Nat),
    3 ≤ gs.length ∧ (∀ g ∈ gs, IsDigitGroup g) ∧
    l = joinGroups gs ++ List.replicate k '.'

/-! ## Concrete example inputs used by the counterexamples and witnesses -/

/-- A checklist text with an empty ballot box followed by a checked ballot
box between two item texts. -/
def mergedGlyphText : String :=
  String.mk ([ballotBox] ++ " aaaaaaaaaaaaaaaa ".data ++ [ballotBoxChecked]
    ++ " bbbbbbbbbbbbbbbb".data)

/-- A sibling run for the part_001 walker: one MathJax checkbox container,
then a text node whose body contains a ballot-box character. -/
def walkNodesDemo : List PNode :=
  [PNode.pelem "MJX-CONTAINER" "x",
   PNode.ptext ("aaaaaaa " ++ String.mk [ballotBox] ++ " bbbbbbbbb")]

/-- A minimal converted page: matching heading, checklist paragraph with
three glyph-delimited items, signature table. -/
def demoDoc : List Node :=
  [Node.elem "H2" "" false [Node.text "Checklist and signature page"],
   Node.elem "P" "" false
     [Node.text (String.mk ([ballotBox] ++ " aaaaaaaaaaaa ".data ++ [ballotBox]
        ++ " bbbbbbbbbbbb ".data ++ [ballotBox] ++ " cccccccccccc".data))],
   Node.elem "TABLE" "" false [Node.text "Signature  Date"]]

/-- A page whose only heading does not match the checklist predicate. -/
def noHeadingDoc : List Node :=
  [Node.elem "H2" "" false [Node.text "Introduction"],
   Node.elem "P" "" false [Node.text "hello world"]]

/-- A filled form used by the round-trip witness. -/
def uiDemo : UIState :=
  { items := [{ checked := true, completed := true }, { checked := false, completed := false }],
    date := "2024-05-01", signature := "data:image/png;base64,sig" }

/-- A stored record whose `checkboxes` field is a number instead of a
boolean array, with a valid date field. -/
def badShapeJson : Json :=
  Json.jobj [("checkboxes", Json.jnum 5), ("date", Json.jstr "2020-01-01"),
    ("signature", Json.jstr "")]

/-- A stored record whose single checkbox entry is `false`. -/
def storedFalseEntry : Stored :=
  Stored.value (Json.jobj [("checkboxes", Json.jarr [Json.jbool false])])

/-- A form whose single checkbox is already checked. -/
def uiChecked : UIState :=
  { items := [{ checked := true, completed := true }], date := "2024-05-01", signature := "s" }

/-! ## Helper lemmas -/

/-- The `allChecked` accumulator loop of `emailChecklist` computes the
conjunction of the accumulator with "every item is checked"
(`if it.checked then acc else false` is `it.checked && acc`, the form the
simplifier normalises the loop body to). -/
theorem foldl_checked : ∀ (its : List CheckItem) (acc : Bool),
    its.foldl (fun acc it => it.checked && acc) acc
      = (acc && its.all (fun it => it.checked))
  | [], acc => by simp
  | it :: rest, acc => by
    rw [List.foldl_cons, foldl_checked rest, List.all_cons]
    cases hc : it.checked <;> simp [hc]

/-- Every sampled alpha byte is an element of the image data. -/
theorem alphaBytes_subset : ∀ (l : List Nat), ∀ a ∈ alphaBytes l, a ∈ l
  | [] => by intro a ha; simp [alphaBytes] at ha
  | [_] => by intro a ha; simp [alphaBytes] at ha
  | [_, _] => by intro a ha; simp [alphaBytes] at ha
  | [_, _, _] => by intro a ha; simp [alphaBytes] at ha
  | r :: g :: b :: x :: rest => by
    intro a ha
    simp only [alphaBytes, List.mem_cons] at ha
    rcases ha with rfl | ha
    · simp
    · have := alphaBytes_subset rest a ha
      simp [this]

/-- The `splitOnDelims` never produces the empty part list. -/
theorem splitOnDelims_ne_nil (p : Char → Bool) : ∀ l, splitOnDelims p l ≠ []
  | [] => by simp [splitOnDelims]
  | c :: rest => by
    simp only [splitOnDelims]
    by_cases h : p c
    · simp [h]
    · simp only [h, if_false]
      cases hq : splitOnDelims p rest <;> simp

/-- Splitting produces one part per delimiter occurrence plus one. -/
theorem splitOnDelims_length (p : Char → Bool) :
    ∀ l, (splitOnDelims p l).length = l.countP p + 1
  | [] => by simp [splitOnDelims]
  | c :: rest => by
    have ih := splitOnDelims_length p rest
    have hne := splitOnDelims_ne_nil p rest
    simp only [splitOnDelims]
    by_cases h : p c
    · simp [h, List.countP_cons, ih]
    · cases hq : splitOnDelims p rest with
      | nil => exact absurd hq hne
      | cons q qs =>
        rw [hq] at ih
        simp only [h, if_false, List.countP_cons, if_neg h]
        simp at ih ⊢
        omega

/-- Concatenating the parts back recovers exactly the non-delimiter
characters: no other character is consumed by the split. -/
theorem splitOnDelims_flatten (p : Char → Bool) :
    ∀ l, (splitOnDelims p l).flatten = l.filter (fun c => !(p c))
  | [] => by simp [splitOnDelims]
  | c :: rest => by
    have ih := splitOnDelims_flatten p rest
    have hne := splitOnDelims_ne_nil p rest
    simp only [splitOnDelims]
    by_cases h : p c
    · simp [h, ih, List.filter_cons]
    · cases hq : splitOnDelims p rest with
      | nil => exact absurd hq hne
      | cons q qs =>
        rw [hq] at ih
        simp only [List.flatten_cons] at ih
        simp [h, List.filter_cons, ih]

/-- The checkbox-restoring loop does nothing when every stored entry is
falsy. -/
theorem applyBoxes_falsy (entry : Nat → Option Json)
    (h : ∀ i, jsTruthyOpt (entry i) = false) :
    ∀ (k : Nat) (ds : List CheckItem), applyBoxes entry k ds = ds
  | _, [] => rfl
  | k, d :: ds => by
    simp [applyBoxes, h k, applyBoxes_falsy entry h (k + 1) ds]

/-- A body-level `h2` is enumerated by the document-wide `h2` query. -/
theorem mem_collectH2_of_mem {doc : List Node} {n : Node}
    (hn : n ∈ doc) (h2 : isH2 n = true) : n ∈ collectH2 doc := by
  induction doc with
  | nil => simp at hn
  | cons x rest ih =>
    rcases List.mem_cons.mp hn with rfl | hmem
    · cases n with
      | text s => simp [isH2] at h2
      | elem t idAttr hidden cs =>
        simp only [isH2] at h2
        simp [collectH2, collectH2Node, h2]
    · simp only [collectH2, List.mem_append]
      exact Or.inr (ih hmem)

/-- When no body child is a matching `h2`, the positional heading search
fails. -/
theorem lastMatchIdxAux_none :
    ∀ (doc : List Node) (i : Nat), (∀ n ∈ doc, isChecklistH2 n = false) →
      lastMatchIdxAux doc i = none
  | [], _, _ => rfl
  | n :: rest, i, h => by
    have hr := lastMatchIdxAux_none rest (i + 1)
      (fun m hm => h m (List.mem_cons_of_mem _ hm))
    simp [lastMatchIdxAux, hr, h n (List.mem_cons_self _ _)]

/-! ## Claim C1 — idempotence of the builder -/

/-- C1, counterexample: the claim asserts a second invocation of
`convertChecklistToInteractive` inserts no second `interactive-checklist`
container.  On the concrete converted page `demoDoc` the second run raises
the number of containers with that id from one to two: the builder never
consults the container id before mutating the page. -/
theorem c1_counterexample :
    ¬ (countById (convertChecklistToInteractive (convertChecklistToInteractive demoDoc))
          "interactive-checklist"
        = countById (convertChecklistToInteractive demoDoc) "interactive-checklist") := by
  decide

/-- C1, amended: there is no guard on the container id — invoking the
builder a second time on the already-converted `demoDoc` finds the hidden
original paragraph again and inserts a second container, duplicating every
checkbox control (one container with three checkbox inputs becomes two
containers with six). -/
theorem c1_second_run_duplicates :
    countById (convertChecklistToInteractive demoDoc) "interactive-checklist" = 1 ∧
    countCheckboxInputs (convertChecklistToInteractive demoDoc) = 3 ∧
    countById (convertChecklistToInteractive (convertChecklistToInteractive demoDoc))
      "interactive-checklist" = 2 ∧
    countCheckboxInputs (convertChecklistToInteractive (convertChecklistToInteractive demoDoc))
      = 6 := by
  decide

/-! ## Claim C2 — export precondition order -/

/-- C2: `emailChecklist` checks its three gates in order — all checkboxes
checked, then a non-zero alpha sample on the signature bitmap, then a
non-empty date — and the first failing gate aborts with its own message
(an `alert` followed by `return`: no download, no state change), while the
export proceeds only when all three hold. -/
theorem c2_precondition_order (ui : UIState) (data : List Nat) :
    (ui.items.all (fun it => it.checked) = false →
      emailChecklist ui (some data)
        = ExportOutcome.abort "Please check all items before submitting.") ∧
    (ui.items.all (fun it => it.checked) = true → hasSignaturePixels data = false →
      emailChecklist ui (some data)
        = ExportOutcome.abort "Please add your signature before submitting.") ∧
    (ui.items.all (fun it => it.checked) = true → hasSignaturePixels data = true →
      ui.date = "" →
      emailChecklist ui (some data)
        = ExportOutcome.abort "Please enter the date before submitting.") ∧
    (ui.items.all (fun it => it.checked) = true → hasSignaturePixels data = true →
      ui.date ≠ "" →
      emailChecklist ui (some data) = ExportOutcome.proceed ui.date) := by
  refine ⟨fun h1 => ?_, fun h1 h2 => ?_, fun h1 h2 h3 => ?_, fun h1 h2 h3 => ?_⟩
  · simp [emailChecklist, foldl_checked, h1]
  · simp [emailChecklist, foldl_checked, h1, h2]
  · simp [emailChecklist, foldl_checked, h1, h2, h3]
  · simp [emailChecklist, foldl_checked, h1, h2, beq_eq_false_iff_ne.mpr h3]

/-- C2, witness: with five items and item 3 unchecked, the export aborts
with the completeness message. -/
theorem c2_witness :
    emailChecklist
      { items := [{ checked := true, completed := true },
          { checked := true, completed := true },
          { checked := false, completed := false },
          { checked := true, completed := true },
          { checked := true, completed := true }],
        date := "2024-05-01", signature := "sig" }
      (some [0, 0, 0, 9])
      = ExportOutcome.abort "Please check all items before submitting." :=
  (c2_precondition_order _ _).1 (by decide)

/-! ## Claim C4 — the delimiter set of the extraction strategies -/

/-- C4, counterexample: in the full-text strategy a checked ballot box
(U+2611) does not start a new item candidate — on `mergedGlyphText` the
extraction returns a single candidate that still contains a glyph of the
four-character family inside it. -/
theorem c4_counterexample :
    (extractItemsFullText mergedGlyphText).length = 1 ∧
    ((extractItemsFullText mergedGlyphText).headD "").data.countP
      (fun c => isDelim4 c) = 1 := by
  decide

/-! ## Claim C5 — malformed stored state -/

/-- C5, counterexample: a stored record whose `checkboxes` field is the
number 5 is not treated identically to an absent value.  With an absent
value the form keeps its defaults, but with the malformed record the
(valid) stored date replaces the default date. -/
theorem c5_counterexample :
    loadChecklistState Stored.absent (defaultUI 2 "2024-05-01") = defaultUI 2 "2024-05-01" ∧
    (loadChecklistState (Stored.value badShapeJson) (defaultUI 2 "2024-05-01")).date
      = "2020-01-01" ∧
    ¬ (loadChecklistState (Stored.value badShapeJson) (defaultUI 2 "2024-05-01")
        = defaultUI 2 "2024-05-01") := by
  decide

/-- C5, amended: a missing key or a parse failure leaves the form exactly
as initialised, with no error; a shape mismatch is tolerated per field —
a `checkboxes` field that is a number checks nothing and leaves every
checkbox and `completed` marker unchanged, while the other fields are
restored independently when well-formed. -/
theorem c5_malformed_fallback (ui : UIState) (k : Int) (d sgn : String) :
    loadChecklistState Stored.absent ui = ui ∧
    loadChecklistState Stored.malformed ui = ui ∧
    (loadChecklistState
        (Stored.value (Json.jobj [("checkboxes", Json.jnum k), ("date", Json.jstr d),
          ("signature", Json.jstr sgn)])) ui).items = ui.items := by
  refine ⟨rfl, rfl, ?_⟩
  have hent : ∀ i,
      jsTruthyOpt (entryOf (Json.jobj [("checkboxes", Json.jnum k), ("date", Json.jstr d),
        ("signature", Json.jstr sgn)]) i) = false := by
    intro i
    simp only [entryOf, jsField, lookupField]
    split <;> simp [jsIndex, jsTruthyOpt]
  simp [loadChecklistState, applyBoxes_falsy _ hent 0]

/-! ## Claim C6 — no matching heading, no mutation -/

/-- C6: when no `h2` anywhere in the document has a text containing both
"checklist" and "signature" (case-insensitively), the builder returns the
document unchanged — zero DOM mutations, no error surfaced. -/
theorem c6_no_matching_heading (doc : List Node)
    (h : ∀ n ∈ collectH2 doc, matchesChecklist n = false) :
    convertChecklistToInteractive doc = doc := by
  have hnone : lastMatchIdx doc = none := by
    apply lastMatchIdxAux_none
    intro n hn
    by_cases h2 : isH2 n = true
    · have hm := h n (mem_collectH2_of_mem hn h2)
      simp [isChecklistH2, h2, hm]
    · simp [isChecklistH2, Bool.eq_false_iff.mpr h2]
  simp [convertChecklistToInteractive, hnone]

/-- C6, witness: a page whose only heading is "Introduction" is returned
untouched. -/
theorem c6_witness : convertChecklistToInteractive noHeadingDoc = noHeadingDoc :=
  c6_no_matching_heading noHeadingDoc (by decide)

/-! ## Claim C7 — cleared signature fails the signature gate -/

/-- C7: after `clearSignature` wipes the whole surface, the alpha-sampling
signature check is false, and consequently — whenever every checkbox is
checked, so that the first gate passes — the export aborts on the
signature precondition. -/
theorem c7_cleared_canvas (c : Canvas) (ui : UIState)
    (h : ui.items.all (fun it => it.checked) = true) :
    hasSignaturePixels (clearSignature c).data = false ∧
    emailChecklist ui (some (clearSignature c).data)
      = ExportOutcome.abort "Please add your signature before submitting." := by
  have hsig : hasSignaturePixels (clearSignature c).data = false := by
    rw [Bool.eq_false_iff]
    intro hcon
    rw [hasSignaturePixels, List.any_eq_true] at hcon
    obtain ⟨a, ha, hpos⟩ := hcon
    have hmem := alphaBytes_subset _ a ha
    rw [clearSignature] at hmem
    simp only [List.mem_map] at hmem
    obtain ⟨_, _, rfl⟩ := hmem
    simp at hpos
  exact ⟨hsig, by simp [emailChecklist, foldl_checked, h, hsig]⟩

/-- C7, witness: a fully opaque 1×1 canvas, once cleared, has no signature
and blocks the export of a fully checked single-item form. -/
theorem c7_witness :
    hasSignaturePixels (clearSignature { width := 1, height := 1, data := [0, 0, 0, 255] }).data
      = false ∧
    emailChecklist uiChecked
      (some (clearSignature { width := 1, height := 1, data := [0, 0, 0, 255] }).data)
      = ExportOutcome.abort "Please add your signature before submitting." :=
  c7_cleared_canvas { width := 1, height := 1, data := [0, 0, 0, 255] } uiChecked (by decide)

/-! ## Claim C3 — persistence round trip -/

/-- The `get?` commutes with `map Json.jbool`. -/
theorem get?_map_jbool : ∀ (all : List Bool) (i : Nat),
    (all.map Json.jbool).get? i = (all.get? i).map Json.jbool
  | [], _ => rfl
  | _ :: _, 0 => rfl
  | _ :: l, i + 1 => get?_map_jbool l i

/-- Looking up a valid index gives the head of the corresponding drop. -/
theorem get?_head_drop : ∀ (l : List Bool) (k : Nat), k < l.length →
    ∃ b, l.get? k = some b ∧ l.drop k = b :: l.drop (k + 1)
  | [], k, h => by simp at h
  | a :: l, 0, _ => ⟨a, rfl, rfl⟩
  | a :: l, k + 1, h => by
    have hk : k < l.length := by simpa using h
    exact get?_head_drop l k hk

/-- Restoring onto all-unchecked checkboxes from a stored boolean array of
the same length reproduces exactly the stored values. -/
theorem applyBoxes_restore : ∀ (all : List Bool) (entry : Nat → Option Json),
    (∀ i, entry i = (all.map Json.jbool).get? i) →
    ∀ (ds : List CheckItem) (k : Nat), ds.length + k = all.length →
      (∀ d ∈ ds, d.checked = false) →
      (applyBoxes entry k ds).map (fun it => it.checked) = all.drop k
  | all, entry, hent, [], k, hlen, _ => by
    have hk : k = all.length := by simpa using hlen
    simp [applyBoxes, hk, List.drop_length]
  | all, entry, hent, d :: ds, k, hlen, hfalse => by
    have hk : k < all.length := by simp at hlen; omega
    obtain ⟨b, hb1, hb2⟩ := get?_head_drop all k hk
    have hentk : entry k = some (Json.jbool b) := by
      rw [hent k, get?_map_jbool, hb1]; rfl
    have hd : d.checked = false := hfalse d (List.mem_cons_self _ _)
    have ih := applyBoxes_restore all entry hent ds (k + 1)
      (by simp at hlen ⊢; omega) (fun x hx => hfalse x (List.mem_cons_of_mem _ hx))
    rw [hb2]
    simp only [applyBoxes, hentk, List.map_cons, ih, List.cons.injEq, and_true]
    cases b <;> simp [jsTruthyOpt, jsTruthy, hd]

/-- C3: saving a well-formed form state (non-empty date, non-empty
signature encoding) and loading it back onto the freshly initialised form
restores every checkbox value, the date and the signature exactly. -/
theorem c3_roundtrip (ui : UIState) (hd : ui.date ≠ "") (hs : ui.signature ≠ "")
    (today : String) :
    ((loadChecklistState (Stored.value (saveChecklistState ui))
        (defaultUI ui.items.length today)).items.map (fun it => it.checked)
      = ui.items.map (fun it => it.checked)) ∧
    (loadChecklistState (Stored.value (saveChecklistState ui))
        (defaultUI ui.items.length today)).date = ui.date ∧
    (loadChecklistState (Stored.value (saveChecklistState ui))
        (defaultUI ui.items.length today)).signature = ui.signature := by
  have hent : ∀ i, entryOf (saveChecklistState ui) i
      = ((ui.items.map (fun it => it.checked)).map Json.jbool).get? i := by
    intro i
    rw [List.map_map]
    rfl
  have hdate : jsField (saveChecklistState ui) "date" = some (Json.jstr ui.date) := rfl
  have hsig : jsField (saveChecklistState ui) "signature" = some (Json.jstr ui.signature) := rfl
  refine ⟨?_, ?_, ?_⟩
  · show (applyBoxes (entryOf (saveChecklistState ui)) 0
        (defaultUI ui.items.length today).items).map (fun it => it.checked) = _
    have := applyBoxes_restore (ui.items.map (fun it => it.checked)) _ hent
      (List.replicate ui.items.length { checked := false, completed := false }) 0
      (by simp) (by intro d hd; simp [List.mem_replicate] at hd; simp [hd])
    simpa [defaultUI] using this
  · show (if jsTruthy (Json.jstr ui.date) then jsonToString (Json.jstr ui.date)
        else (defaultUI ui.items.length today).date) = ui.date
    simp [jsTruthy, jsonToString, bne_iff_ne.mpr hd]
  · show (if jsTruthy (Json.jstr ui.signature) then jsonToString (Json.jstr ui.signature)
        else (defaultUI ui.items.length today).signature) = ui.signature
    simp [jsTruthy, jsonToString, bne_iff_ne.mpr hs]

/-- C3, witness: the round trip on a concrete two-item form. -/
theorem c3_witness :
    ((loadChecklistState (Stored.value (saveChecklistState uiDemo))
        (defaultUI uiDemo.items.length "2025-01-01")).items.map (fun it => it.checked)
      = uiDemo.items.map (fun it => it.checked)) ∧
    (loadChecklistState (Stored.value (saveChecklistState uiDemo))
        (defaultUI uiDemo.items.length "2025-01-01")).date = uiDemo.date ∧
    (loadChecklistState (Stored.value (saveChecklistState uiDemo))
        (defaultUI uiDemo.items.length "2025-01-01")).signature = uiDemo.signature :=
  c3_roundtrip uiDemo (by decide) (by decide) "2025-01-01"

/-! ## Claim C8 — last matching heading wins -/

/-- The last-write-wins fold over the headings returns the last match, or
the accumulator when there is none. -/
theorem foldl_lastMatch : ∀ (l : List Node) (acc : Option Node),
    l.foldl (fun acc h => if matchesChecklist h then some h else acc) acc
      = (match (l.filter (fun n => matchesChecklist n)).getLast? with
          | some x => some x
          | none => acc)
  | [], acc => by simp
  | x :: l, acc => by
    rw [List.foldl_cons, foldl_lastMatch l]
    by_cases hx : matchesChecklist x = true
    · simp only [List.filter_cons, hx, if_true]
      cases hl : (l.filter (fun n => matchesChecklist n)).getLast? with
      | none =>
        have : l.filter (fun n => matchesChecklist n) = [] :=
          List.getLast?_eq_none_iff.mp hl
        simp [this]
      | some y =>
        cases hfl : l.filter (fun n => matchesChecklist n) with
        | nil => rw [hfl] at hl; simp at hl
        | cons z zs =>
          rw [hfl] at hl
          simp [List.getLast?_cons_cons, hl]
    · simp only [List.filter_cons, hx, if_false]
      rfl

/-- C8: the region locator selects precisely the last heading, in document
iteration order, whose text matches the checklist/signature predicate. -/
theorem c8_last_match_wins (doc : List Node) :
    findChecklistHeading doc
      = ((collectH2 doc).filter (fun n => matchesChecklist n)).getLast? := by
  rw [findChecklistHeading, foldl_lastMatch]
  cases ((collectH2 doc).filter (fun n => matchesChecklist n)).getLast? <;> rfl

/-! ## Claim C9 — loading never unchecks -/

/-- Pointwise description of the checkbox-restoring loop: position `i` is
force-set to checked-and-completed when entry `k + i` is truthy and kept
untouched otherwise. -/
theorem applyBoxes_get : ∀ (entry : Nat → Option Json) (ds : List CheckItem) (k i : Nat),
    (applyBoxes entry k ds).get? i
      = (ds.get? i).map (fun d =>
          if jsTruthyOpt (entry (k + i)) then
            ({ checked := true, completed := true } : CheckItem)
          else d)
  | entry, [], k, i => by simp [applyBoxes]
  | entry, d :: ds, k, 0 => by simp [applyBoxes]
  | entry, d :: ds, k, i + 1 => by
    have ih := applyBoxes_get entry ds (k + 1) i
    have harith : k + (i + 1) = (k + 1) + i := by omega
    simp only [applyBoxes, harith]
    exact ih

/-- Reduction of `loadChecklistState` on a parsed non-null record. -/
theorem loadItems_eq (j : Json) (hj : j ≠ Json.null) (ui : UIState) :
    (loadChecklistState (Stored.value j) ui).items = applyBoxes (entryOf j) 0 ui.items := by
  cases j with
  | null => exact absurd rfl hj
  | jbool b => rfl
  | jnum n => rfl
  | jstr s => rfl
  | jarr xs => rfl
  | jobj fs => rfl

/-- The truthiness test reduces to `entryOf` on non-null records. -/
theorem entryTruthy_eq (j : Json) (hj : j ≠ Json.null) (i : Nat) :
    entryTruthy (Stored.value j) i = jsTruthyOpt (entryOf j i) := by
  cases j with
  | null => exact absurd rfl hj
  | jbool b => rfl
  | jnum n => rfl
  | jstr s => rfl
  | jarr xs => rfl
  | jobj fs => rfl

/-- C9: `loadChecklistState` is one-directional on the checkboxes — a
checkbox already checked (or an item already marked completed) stays so
under any stored record, and a position whose stored entry is not truthy
is left exactly as it was. -/
theorem c9_one_directional (stored : Stored) (ui : UIState) (i : Nat) :
    (((ui.items.get? i).map (fun it => it.checked) = some true) →
      (((loadChecklistState stored ui).items.get? i).map (fun it => it.checked) = some true)) ∧
    (((ui.items.get? i).map (fun it => it.completed) = some true) →
      (((loadChecklistState stored ui).items.get? i).map (fun it => it.completed) = some true)) ∧
    (entryTruthy stored i = false →
      (loadChecklistState stored ui).items.get? i = ui.items.get? i) := by
  cases stored with
  | absent => exact ⟨fun h => h, fun h => h, fun _ => rfl⟩
  | malformed => exact ⟨fun h => h, fun h => h, fun _ => rfl⟩
  | value j =>
    by_cases hj : j = Json.null
    · subst hj
      exact ⟨fun h => h, fun h => h, fun _ => rfl⟩
    · rw [and_assoc.symm] at *
      refine ⟨⟨?_, ?_⟩, ?_⟩
      · intro h
        rw [loadItems_eq j hj, applyBoxes_get, Nat.zero_add]
        cases hu : ui.items.get? i with
        | none => rw [hu] at h; simp at h
        | some d =>
          rw [hu] at h
          simp only [Option.map] at h ⊢
          by_cases ht : jsTruthyOpt (entryOf j i) = true <;> simp [ht, Option.some.injEq] at h ⊢
          exact h
      · intro h
        rw [loadItems_eq j hj, applyBoxes_get, Nat.zero_add]
        cases hu : ui.items.get? i with
        | none => rw [hu] at h; simp at h
        | some d =>
          rw [hu] at h
          simp only [Option.map] at h ⊢
          by_cases ht : jsTruthyOpt (entryOf j i) = true <;> simp [ht, Option.some.injEq] at h ⊢
          exact h
      · intro hf
        rw [entryTruthy_eq j hj] at hf
        rw [loadItems_eq j hj, applyBoxes_get, Nat.zero_add, hf]
        cases ui.items.get? i <;> rfl

/-- C9, witness: loading a record whose single entry is `false` onto a form
whose checkbox is already checked leaves it checked and untouched. -/
theorem c9_witness :
    (((loadChecklistState storedFalseEntry uiChecked).items.get? 0).map
        (fun it => it.checked) = some true) ∧
    (loadChecklistState storedFalseEntry uiChecked).items.get? 0
      = uiChecked.items.get? 0 :=
  ⟨(c9_one_directional storedFalseEntry uiChecked 0).1 (by decide),
   (c9_one_directional storedFalseEntry uiChecked 0).2.2 (by decide)⟩

/-! ## Claim C4, amended theorem -/

/-- C4, amended: the primary split strategy delimits on exactly the
four-glyph checkbox family — one part per glyph occurrence, and no other
character is consumed — and the family is precisely
{U+2610, U+2611, U+2612, U+25A1}.  The full-text strategy however delimits
only on U+2610 and U+25A1, and the node-walking strategy of part_001
delimits on MathJax/MathML elements, not on glyph characters: on
`walkNodesDemo` it returns a single item that still contains a ballot-box
glyph. -/
theorem c4_delimiter_sets :
    (∀ l : List Char, (splitOnDelims isDelim4 l).length = l.countP isDelim4 + 1 ∧
      (splitOnDelims isDelim4 l).flatten = l.filter (fun c => !(isDelim4 c))) ∧
    (∀ c : Char, isDelim4 c = true ↔
      (c = ballotBox ∨ c = ballotBoxChecked ∨ c = ballotBoxX ∨ c = whiteSquare)) ∧
    (isDelim2 ballotBoxChecked = false ∧ isDelim2 ballotBoxX = false ∧
      isDelim2 ballotBox = true ∧ isDelim2 whiteSquare = true) ∧
    ((extractItemsWalk walkNodesDemo).length = 1 ∧
      ((extractItemsWalk walkNodesDemo).headD "").data.countP
        (fun c => isDelim4 c) = 1) := by
  refine ⟨fun l => ⟨splitOnDelims_length _ l, splitOnDelims_flatten _ l⟩,
    fun c => ?_, by decide, by decide⟩
  simp [isDelim4, Bool.or_eq_true, beq_iff_eq, or_assoc]

/-! ## Claim C10 — helper lemmas for the numbering pattern -/

/-- A digit character is not a dot. -/
theorem digit_ne_dot {c : Char} (h : c.isDigit = true) : (c == '.') = false := by
  cases hbc : (c == '.') with
  | false => rfl
  | true =>
    have hcd : c = '.' := beq_iff_eq.mp hbc
    subst hcd
    exact absurd h (by decide)

/-- The dot is not a digit. -/
theorem dot_not_digit : ('.' : Char).isDigit = false := by decide

/-- The `joinGroups` splits off its first group. -/
theorem joinGroups_cons : ∀ (g : List Char) (gs : List (List Char)),
    joinGroups (g :: gs) = g ++ dotGroups gs
  | _, [] => by simp [joinGroups, dotGroups]
  | g, g' :: gs => by
    rw [joinGroups, joinGroups_cons g' gs]
    simp [dotGroups]

/-- The `dotGroups` splits off its first group. -/
theorem dotGroups_cons (x : List Char) (gs : List (List Char)) :
    dotGroups (x :: gs) = '.' :: (x ++ dotGroups gs) := by
  simp [dotGroups]

/-- A run of dots satisfies `allDots`. -/
theorem allDots_rep : ∀ k, allDots (List.replicate k '.') = true
  | 0 => rfl
  | k + 1 => by
    rw [List.replicate_succ]
    simp [allDots, allDots_rep k]

/-- The `allDots` characterises dot runs. -/
theorem allDots_eq_rep : ∀ (l : List Char), allDots l = true → l = List.replicate l.length '.'
  | [], _ => rfl
  | c :: rest, h => by
    simp only [allDots, Bool.and_eq_true, beq_iff_eq] at h
    obtain ⟨rfl, hrest⟩ := h
    rw [List.length_cons, List.replicate_succ]
    rw [allDots_eq_rep rest hrest]
    simp

/-- Soundness of the two scanner states: acceptance decomposes the input
into a digit run, dot-prefixed digit groups, and trailing dots, with
enough groups overall. -/
theorem scanner_sound : ∀ (n : Nat) (l : List Char), l.length ≤ n → ∀ g : Nat,
    (matchInDigits l g = true →
      ∃ (d : List Char) (gs : List (List Char)) (k : Nat),
        (∀ c ∈ d, c.isDigit = true) ∧ (∀ x ∈ gs, IsDigitGroup x) ∧
        3 ≤ g + gs.length ∧ l = d ++ dotGroups gs ++ List.replicate k '.') ∧
    (matchAfterDot l g = true →
      ((3 ≤ g ∧ ∃ k, l = List.replicate k '.') ∨
        (∃ (x : List Char) (gs : List (List Char)) (k : Nat),
          IsDigitGroup x ∧ (∀ y ∈ gs, IsDigitGroup y) ∧
          3 ≤ (g + 1) + gs.length ∧ l = x ++ dotGroups gs ++ List.replicate k '.'))) := by
  intro n
  induction n with
  | zero =>
    intro l hl g
    have hnil : l = [] := List.eq_nil_of_length_eq_zero (Nat.le_zero.mp hl)
    subst hnil
    constructor
    · intro h
      simp only [matchInDigits, decide_eq_true_eq] at h
      exact ⟨[], [], 0, by simp, by simp, by simpa using h, by simp [dotGroups]⟩
    · intro h
      simp only [matchAfterDot, decide_eq_true_eq] at h
      exact Or.inl ⟨h, 0, rfl⟩
  | succ n ih =>
    intro l hl g
    cases l with
    | nil =>
      constructor
      · intro h
        simp only [matchInDigits, decide_eq_true_eq] at h
        exact ⟨[], [], 0, by simp, by simp, by simpa using h, by simp [dotGroups]⟩
      · intro h
        simp only [matchAfterDot, decide_eq_true_eq] at h
        exact Or.inl ⟨h, 0, rfl⟩
    | cons c rest =>
      have hrest : rest.length ≤ n := by simpa using hl
      constructor
      · intro h
        by_cases hc : c.isDigit = true
        · simp only [matchInDigits, hc, if_true] at h
          obtain ⟨d, gs, k, hd, hgs, h3, rfl⟩ := (ih rest hrest g).1 h
          exact ⟨c :: d, gs, k, by
              intro x hx
              rcases List.mem_cons.mp hx with rfl | hx
              · exact hc
              · exact hd x hx,
            hgs, h3, by simp⟩
        · have hc' : c.isDigit = false := Bool.eq_false_iff.mpr hc
          by_cases hdot : (c == '.') = true
          · have hceq : c = '.' := beq_iff_eq.mp hdot
            subst hceq
            simp only [matchInDigits, hc', beq_self_eq_true, if_false, if_true] at h
            rcases (ih rest hrest g).2 h with ⟨h3, k, rfl⟩ | ⟨x, gs, k, hx, hgs, h3, rfl⟩
            · refine ⟨[], [], k + 1, by simp, by simp, by simpa using h3, ?_⟩
              simp [dotGroups, List.replicate_succ]
            · refine ⟨[], x :: gs, k, by simp, ?_, ?_, ?_⟩
              · intro y hy
                rcases List.mem_cons.mp hy with rfl | hy
                · exact hx
                · exact hgs y hy
              · simp only [List.length_cons]
                omega
              · rw [dotGroups_cons]
                simp
          · have hdot' : (c == '.') = false := Bool.eq_false_iff.mpr hdot
            simp [matchInDigits, hc', hdot'] at h
      · intro h
        by_cases hc : c.isDigit = true
        · simp only [matchAfterDot, hc, if_true] at h
          obtain ⟨d, gs, k, hd, hgs, h3, rfl⟩ := (ih rest hrest (g + 1)).1 h
          refine Or.inr ⟨c :: d, gs, k, ⟨by simp, ?_⟩, hgs, h3, by simp⟩
          intro x hx
          rcases List.mem_cons.mp hx with rfl | hx
          · exact hc
          · exact hd x hx
        · have hc' : c.isDigit = false := Bool.eq_false_iff.mpr hc
          by_cases hdot : (c == '.') = true
          · have hceq : c = '.' := beq_iff_eq.mp hdot
            subst hceq
            have hval : matchAfterDot ('.' :: rest) g
                = (decide (3 ≤ g) && allDots rest) := rfl
            rw [hval, Bool.and_eq_true, decide_eq_true_eq] at h
            obtain ⟨h3, hdots⟩ := h
            refine Or.inl ⟨h3, rest.length + 1, ?_⟩
            rw [List.replicate_succ]
            rw [allDots_eq_rep rest hdots]
            simp
          · have hdot' : (c == '.') = false := Bool.eq_false_iff.mpr hdot
            simp [matchAfterDot, hc', hdot'] at h

/-- The matcher accepts only well-shaped strings. -/
theorem matchEnumPattern_sound (l : List Char) (h : matchEnumPattern l = true) :
    DtShape l := by
  cases l with
  | nil => simp [matchEnumPattern] at h
  | cons c rest =>
    by_cases hc : c.isDigit = true
    · simp only [matchEnumPattern, hc, if_true] at h
      obtain ⟨d, gs, k, hd, hgs, h3, rfl⟩ := (scanner_sound rest.length rest le_rfl 1).1 h
      refine ⟨(c :: d) :: gs, k, ?_, ?_, ?_⟩
      · simp only [List.length_cons]
        omega
      · intro x hx
        rcases List.mem_cons.mp hx with rfl | hx
        · refine ⟨by simp, ?_⟩
          intro y hy
          rcases List.mem_cons.mp hy with rfl | hy
          · exact hc
          · exact hd y hy
        · exact hgs x hx
      · rw [joinGroups_cons]
        simp
    · have hc' : c.isDigit = false := Bool.eq_false_iff.mpr hc
      simp [matchEnumPattern, hc'] at h

/-- The scanner accepts any dot run once enough groups were seen
(after-dot state). -/
theorem afterDot_rep (k g : Nat) (hg : 3 ≤ g) :
    matchAfterDot (List.replicate k '.') g = true := by
  cases k with
  | zero => simp [matchAfterDot, hg]
  | succ m =>
    rw [List.replicate_succ]
    have hval : matchAfterDot ('.' :: List.replicate m '.') g
        = (decide (3 ≤ g) && allDots (List.replicate m '.')) := rfl
    rw [hval, allDots_rep]
    simp [hg]

/-- The scanner accepts any dot run once enough groups were seen
(in-digits state). -/
theorem inDigits_rep (k g : Nat) (hg : 3 ≤ g) :
    matchInDigits (List.replicate k '.') g = true := by
  cases k with
  | zero => simp [matchInDigits, hg]
  | succ m =>
    rw [List.replicate_succ]
    have hval : matchInDigits ('.' :: List.replicate m '.') g
        = matchAfterDot (List.replicate m '.') g := rfl
    rw [hval]
    exact afterDot_rep m g hg

/-- The in-digits state skips over a digit run. -/
theorem inDigits_digits : ∀ (d l : List Char) (g : Nat),
    (∀ c ∈ d, c.isDigit = true) → matchInDigits (d ++ l) g = matchInDigits l g
  | [], _, _, _ => rfl
  | c :: d, l, g, h => by
    have hc := h c (List.mem_cons_self _ _)
    have ih := inDigits_digits d l g (fun x hx => h x (List.mem_cons_of_mem _ hx))
    simp [matchInDigits, hc, ih]

/-- Completeness of the in-digits state over the remaining dot-prefixed
groups and trailing dots. -/
theorem inDigits_complete : ∀ (gs : List (List Char)) (g k : Nat),
    (∀ x ∈ gs, IsDigitGroup x) → 3 ≤ g + gs.length →
    matchInDigits (dotGroups gs ++ List.replicate k '.') g = true
  | [], g, k, _, hg => by
    have : dotGroups ([] : List (List Char)) = [] := rfl
    rw [this, List.nil_append]
    exact inDigits_rep k g (by simpa using hg)
  | x :: gs, g, k, hgs, hg => by
    obtain ⟨hx1, hx2⟩ := hgs x (List.mem_cons_self _ _)
    obtain ⟨c, d, rfl⟩ : ∃ c d, x = c :: d := by
      cases x with
      | nil => exact absurd rfl hx1
      | cons c d => exact ⟨c, d, rfl⟩
    have hc : c.isDigit = true := hx2 c (List.mem_cons_self _ _)
    have hd : ∀ y ∈ d, y.isDigit = true := fun y hy => hx2 y (List.mem_cons_of_mem _ hy)
    have ih := inDigits_complete gs (g + 1) k
      (fun y hy => hgs y (List.mem_cons_of_mem _ hy))
      (by simp only [List.length_cons] at hg; omega)
    rw [dotGroups_cons]
    simp only [List.cons_append, List.append_assoc]
    have hval : ∀ t, matchInDigits ('.' :: t) g = matchAfterDot t g := fun t => rfl
    rw [hval]
    simp only [matchAfterDot, hc, if_true]
    rw [inDigits_digits d _ _ hd]
    exact ih

/-- The matcher accepts every well-shaped string. -/
theorem matchEnumPattern_complete (l : List Char) (h : DtShape l) :
    matchEnumPattern l = true := by
  obtain ⟨gs, k, h3, hgs, rfl⟩ := h
  obtain ⟨x, gs', rfl⟩ : ∃ x gs', gs = x :: gs' := by
    cases gs with
    | nil => simp at h3
    | cons x gs' => exact ⟨x, gs', rfl⟩
  obtain ⟨hx1, hx2⟩ := hgs x (List.mem_cons_self _ _)
  obtain ⟨c, d, rfl⟩ : ∃ c d, x = c :: d := by
    cases x with
    | nil => exact absurd rfl hx1
    | cons c d => exact ⟨c, d, rfl⟩
  have hc : c.isDigit = true := hx2 c (List.mem_cons_self _ _)
  have hd : ∀ y ∈ d, y.isDigit = true := fun y hy => hx2 y (List.mem_cons_of_mem _ hy)
  rw [joinGroups_cons]
  simp only [List.cons_append, List.append_assoc]
  simp only [matchEnumPattern, hc, if_true]
  rw [inDigits_digits d _ _ hd]
  exact inDigits_complete gs' 1 k (fun y hy => hgs y (List.mem_cons_of_mem _ hy))
    (by simp only [List.length_cons] at h3; omega)

/-- Stripping trailing dots from a pure dot run leaves nothing. -/
theorem dropTrailingDots_rep : ∀ k, dropTrailingDots (List.replicate k '.') = []
  | 0 => rfl
  | k + 1 => by
    rw [List.replicate_succ]
    simp [dropTrailingDots, dropTrailingDots_rep k]

/-- Unfolding of `dropTrailingDots` on a head whose tail strips to
nothing. -/
theorem dropTrailingDots_cons_nil (c : Char) (t : List Char)
    (ht : dropTrailingDots t = []) :
    dropTrailingDots (c :: t) = if c == '.' then [] else [c] := by
  simp [dropTrailingDots, ht]

/-- Unfolding of `dropTrailingDots` on a head whose tail strips to
something non-empty. -/
theorem dropTrailingDots_cons (c : Char) (t y : List Char)
    (hy : dropTrailingDots t = y) (hne : y ≠ []) :
    dropTrailingDots (c :: t) = c :: y := by
  cases y with
  | nil => exact absurd rfl hne
  | cons z zs => simp [dropTrailingDots, hy]

/-- Stripping trailing dots removes exactly the appended dot run when the
base does not itself end in a dot. -/
theorem dropTrailingDots_append : ∀ (m : List Char),
    (∀ c, m.getLast? = some c → (c == '.') = false) →
    ∀ k, dropTrailingDots (m ++ List.replicate k '.') = m
  | [], _, k => by simp [dropTrailingDots_rep]
  | [c], h, k => by
    have hc := h c (List.getLast?_singleton c)
    rw [List.cons_append, List.nil_append,
      dropTrailingDots_cons_nil c _ (dropTrailingDots_rep k), hc]
    rfl
  | c :: c' :: m, h, k => by
    have ih := dropTrailingDots_append (c' :: m)
      (fun x hx => h x (by rw [List.getLast?_cons_cons]; exact hx)) k
    rw [List.cons_append]
    exact dropTrailingDots_cons c _ _ ih (by simp)

/-- The join of non-empty digit groups ends in a digit. -/
theorem joinGroups_last : ∀ (gs : List (List Char)), gs ≠ [] →
    (∀ x ∈ gs, IsDigitGroup x) →
    ∀ c, (joinGroups gs).getLast? = some c → c.isDigit = true
  | [], h, _ => absurd rfl h
  | [g], _, hgs => by
    intro c hc
    have hmem : c ∈ g := by
      have hg : joinGroups [g] = g := rfl
      rw [hg] at hc
      obtain ⟨hne, heq⟩ := List.mem_getLast?_eq_getLast (hc ▸ Option.mem_some_iff.mpr rfl)
      exact heq ▸ List.getLast_mem hne
    exact (hgs g (List.mem_cons_self _ _)).2 c hmem
  | g :: g' :: gs, _, hgs => by
    intro c hc
    have ih := joinGroups_last (g' :: gs) (by simp)
      (fun x hx => hgs x (List.mem_cons_of_mem _ hx)) c
    rw [joinGroups] at hc
    rw [List.getLast?_append_of_ne_nil _ (by simp)] at hc
    have hne : joinGroups (g' :: gs) ≠ [] := by
      rw [joinGroups_cons]
      intro hcon
      rcases List.append_eq_nil.mp hcon with ⟨hg', _⟩
      exact (hgs g' (List.mem_cons_of_mem _ (List.mem_cons_self _ _))).1 hg'
    cases hjg : joinGroups (g' :: gs) with
    | nil => exact absurd hjg hne
    | cons z zs =>
      rw [hjg, List.getLast?_cons_cons] at hc
      rw [hjg] at ih
      exact ih hc

/-- Splitting a delimiter-free string yields that single part. -/
theorem splitOnDelims_nodelim : ∀ (p : Char → Bool) (l : List Char),
    (∀ c ∈ l, p c = false) → splitOnDelims p l = [l]
  | _, [], _ => rfl
  | p, c :: l, h => by
    have ih := splitOnDelims_nodelim p l (fun x hx => h x (List.mem_cons_of_mem _ hx))
    simp [splitOnDelims, h c (List.mem_cons_self _ _), ih]

/-- A delimiter-free prefix is absorbed into the first part of the
split. -/
theorem splitOnDelims_append_nodelim : ∀ (p : Char → Bool) (a l : List Char),
    (∀ c ∈ a, p c = false) →
    splitOnDelims p (a ++ l) = List.modifyHead (fun q => a ++ q) (splitOnDelims p l)
  | p, [], l, _ => by
    cases hq : splitOnDelims p l with
    | nil => exact absurd hq (splitOnDelims_ne_nil p l)
    | cons q qs => simp [hq, List.modifyHead_cons]
  | p, c :: a, l, h => by
    have ih := splitOnDelims_append_nodelim p a l
      (fun x hx => h x (List.mem_cons_of_mem _ hx))
    cases hq : splitOnDelims p l with
    | nil => exact absurd hq (splitOnDelims_ne_nil p l)
    | cons q qs =>
      rw [hq] at ih
      rw [List.cons_append]
      simp [splitOnDelims, h c (List.mem_cons_self _ _), ih, List.modifyHead_cons]

/-- Splitting the dot-joined digit groups on the dot recovers exactly the
groups. -/
theorem splitOnDelims_join_dot : ∀ (gs : List (List Char)), gs ≠ [] →
    (∀ x ∈ gs, IsDigitGroup x) →
    splitOnDelims (fun c => c == '.') (joinGroups gs) = gs
  | [], h, _ => absurd rfl h
  | [g], _, hgs => by
    have hg : joinGroups [g] = g := rfl
    rw [hg]
    exact splitOnDelims_nodelim _ g
      (fun c hc => digit_ne_dot ((hgs g (List.mem_cons_self _ _)).2 c hc))
  | g :: g' :: gs, _, hgs => by
    have ih := splitOnDelims_join_dot (g' :: gs) (by simp)
      (fun x hx => hgs x (List.mem_cons_of_mem _ hx))
    have hg := hgs g (List.mem_cons_self _ _)
    rw [joinGroups]
    rw [splitOnDelims_append_nodelim _ g _ (fun c hc => digit_ne_dot (hg.2 c hc))]
    have hdotsplit : splitOnDelims (fun c => c == '.') ('.' :: joinGroups (g' :: gs))
        = [] :: splitOnDelims (fun c => c == '.') (joinGroups (g' :: gs)) := by
      simp [splitOnDelims]
    rw [hdotsplit, ih]
    simp [List.modifyHead_cons]

/-- C10: `fixDtText` rewrites a `dt` text exactly when its trimmed content
consists of three or more dot-separated integer components optionally
followed by trailing dots (the compiled matcher decides precisely that
shape); a matching text is replaced by its final integer component followed
by a single period, and any other text is left unchanged. -/
theorem c10_fix_numbering (s : String) :
    (matchEnumPattern (jsTrim s).data = true ↔ DtShape (jsTrim s).data) ∧
    (¬ DtShape (jsTrim s).data → fixDtText s = s) ∧
    (∀ (gs : List (List Char)) (k : Nat), 3 ≤ gs.length → (∀ g ∈ gs, IsDigitGroup g) →
      (jsTrim s).data = joinGroups gs ++ List.replicate k '.' →
      fixDtText s = String.mk (gs.getLastD []) ++ ".") := by
  refine ⟨⟨matchEnumPattern_sound _, matchEnumPattern_complete _⟩, ?_, ?_⟩
  · intro hns
    have hm : matchEnumPattern (jsTrim s).data = false := by
      cases hmb : matchEnumPattern (jsTrim s).data with
      | false => rfl
      | true => exact absurd (matchEnumPattern_sound _ hmb) hns
    simp [fixDtText, hm]
  · intro gs k h3 hgs heq
    have hm : matchEnumPattern (jsTrim s).data = true :=
      matchEnumPattern_complete _ ⟨gs, k, h3, hgs, heq⟩
    have hgs_ne : gs ≠ [] := by
      intro hcon
      rw [hcon] at h3
      simp at h3
    have hlast : ∀ c, (joinGroups gs).getLast? = some c → (c == '.') = false :=
      fun c hc => digit_ne_dot (joinGroups_last gs hgs_ne hgs c hc)
    have hld : lastDotComponent (jsTrim s).data = gs.getLastD [] := by
      rw [lastDotComponent, heq, dropTrailingDots_append _ hlast k,
        splitOnDelims_join_dot gs hgs_ne hgs]
    simp only [fixDtText, hm, if_true, hld]

/-- C10, witness: `"1.2"` has too few components and is kept; the
TeX4ht-malformed `"1.2.3.1."` is rewritten to `"1."`. -/
theorem c10_witness : fixDtText "1.2" = "1.2" ∧ fixDtText "1.2.3.1." = "1." := by
  constructor
  · exact (c10_fix_numbering "1.2").2.1 (fun hshape =>
      absurd ((c10_fix_numbering "1.2").1.mpr hshape) (by decide))
  · have h := (c10_fix_numbering "1.2.3.1.").2.2 [['1'], ['2'], ['3'], ['1']] 1
      (by decide) (by decide) (by decide)
    exact h.trans (by decide)

end LabManual
